import Mathlib

/-
Verification of the `RandomWalker` engine of the random-walks repository.

Shallow embedding of `src/src/random_walker.py` (the primary variant) and,
where it differs, `src/random_walker.py` (the legacy variant).  Python
`ValueError`s become an explicit error type carried in `Except`; the
process-wide numpy random state becomes an explicit `RState` value threaded
through the operations; float coordinates are idealised as exact rationals
(every Python float value is a rational number), and the float square root
applied by the two distance methods is kept at the statement level: the
embedded distance computations return the radicand (the squared distance),
of which the value stored by the source is `np.sqrt`, a fixed deterministic
function.
-/

namespace RandomWalks

/-- Validation failures raised by the engine (both are `ValueError` in the
source): `InvalidDimension` for `ndim` outside `1..3` as raised by
`_check_valid_dimensionality`, `InvalidPosition` for a position whose length
differs from `ndim` as raised by `_check_valid_position`. -/
inductive Err where
  | InvalidDimension : Err
  | InvalidPosition : Err
deriving DecidableEq

/-- Position: an ordered tuple of coordinates (`Tuple[float, ...]` in the
source), idealised as exact rationals. -/
abbrev Pos := List ℚ

/-- The process-wide numpy random state: an abstract stream of draws together
with a cursor into it. -/
structure RState where
  stream : Nat → Nat
  pos : Nat

/-- Model of `np.random.choice(k)`: one uniform draw in `[0, k)` from the
global stream, advancing the cursor.  The draw is reduced mod `k`; numpy
draws are already in range, on which `% k` is the identity. -/
def npChoice (k : Nat) (r : RState) : Nat × RState :=
  (r.stream r.pos % k, ⟨r.stream, r.pos + 1⟩)

/-- Model of the guarded seeding `if seed > 0: np.random.seed(seed)` in
`__init__`: a positive seed deterministically reinitialises the global
stream (numpy's seed-to-stream map is the parameter `f`); otherwise the
global state is left untouched. -/
def npSeed (f : Int → Nat → Nat) (seed : Int) (r : RState) : RState :=
  if seed > 0 then ⟨f seed, 0⟩ else r

/-- Persistent state of a `RandomWalker` object: dimensionality, start
position, offset catalog and trajectory.  A `track_data` entry is
`(position, distance_from_origin, distance_from_start)`; the two distances
are recorded by their radicands (squared distances), see the header note. -/
structure Walker where
  ndim : Nat
  start : Pos
  offsets : List (List Int)
  track_data : List (Pos × ℚ × ℚ)

/-- Body of `distance_from_origin` for a given dimensionality: the check of
`_check_valid_position` (`len(position) != ndim` raises), then
`np.sum((np.asarray((0,) * ndim) - np.asarray(position)) ** 2)`.  The source
returns `np.sqrt` of this radicand. -/
def sq_dist_origin (ndim : Nat) (p : Pos) : Except Err ℚ :=
  if p.length ≠ ndim then .error .InvalidPosition
  else .ok ((List.zipWith (fun z x => (z - x) * (z - x))
      (List.replicate ndim (0 : ℚ)) p).sum)

/-- Method `distance_from_origin` (up to the final `np.sqrt`). -/
def sq_distance_from_origin (w : Walker) (p : Pos) : Except Err ℚ :=
  sq_dist_origin w.ndim p

/-- Method `distance_from_start` (up to the final `np.sqrt`): the check of
`_check_valid_position`, then `np.sum((self.start - np.asarray(position)) ** 2)`. -/
def sq_distance_from_start (w : Walker) (p : Pos) : Except Err ℚ :=
  if p.length ≠ w.ndim then .error .InvalidPosition
  else .ok ((List.zipWith (fun s x => (s - x) * (s - x)) w.start p).sum)

/-- One axis-aligned offset: `[0 if j != i else direction for j in range(ndim)]`
(both variants build individual offsets this way). -/
def axisOffset (ndim i : Nat) (direction : Int) : List Int :=
  (List.range ndim).map (fun j => if j ≠ i then 0 else direction)

/-- Axis-aligned catalog of `src/src/random_walker.py`:
`[... for direction in [1, -1] for i in range(self.ndim)]`
(direction in the outer loop, axis index in the inner loop). -/
def offsetsAxis (ndim : Nat) : List (List Int) :=
  ([1, -1] : List Int).flatMap
    (fun direction => (List.range ndim).map (fun i => axisOffset ndim i direction))

/-- Axis-aligned catalog of `src/random_walker.py`:
`for i in range(self.ndim): for direction in [1, -1]: ...`
(axis index in the outer loop, direction in the inner loop). -/
def offsetsAxisLegacy (ndim : Nat) : List (List Int) :=
  (List.range ndim).flatMap
    (fun i => ([1, -1] : List Int).map (fun direction => axisOffset ndim i direction))

/-- Model of `itertools.product(choices, repeat=n)`: lexicographic Cartesian
power, leftmost factor varying slowest. -/
def prodList (choices : List Int) : Nat → List (List Int)
  | 0 => [[]]
  | n + 1 => choices.flatMap (fun c => (prodList choices n).map (fun rest => c :: rest))

/-- Diagonal catalog: `list(product([-1, 0, 1], repeat=self.ndim))` with the
single occurrence of `tuple([0] * self.ndim)` removed (`list.remove` deletes
the first occurrence). -/
def offsetsDiag (ndim : Nat) : List (List Int) :=
  (prodList [-1, 0, 1] ndim).erase (List.replicate ndim 0)

/-- Constructor `__init__`: sets `ndim` and runs `_check_valid_dimensionality`
(`1 <= ndim <= 3`, else `InvalidDimension`); records the first trajectory
entry `(start, self.distance_from_origin(start), 0.)`, whose embedded
distance call validates `len(start) == ndim`; seeds the global stream when
`seed > 0`; builds the offset catalog from `allow_diagonals`. -/
def mkWalker (start : Pos) (ndim : Int) (allow_diagonals : Bool) (seed : Int)
    (f : Int → Nat → Nat) (r : RState) : Except Err (Walker × RState) :=
  if ¬ (1 ≤ ndim ∧ ndim ≤ 3) then .error .InvalidDimension
  else
    match sq_dist_origin ndim.toNat start with
    | .error e => .error e
    | .ok d0 =>
      .ok ({ ndim := ndim.toNat, start := start,
             offsets := if allow_diagonals then offsetsDiag ndim.toNat
                        else offsetsAxis ndim.toNat,
             track_data := [(start, d0, 0)] },
           npSeed f seed r)

/-- Component-wise `tuple(p + o for p, o in zip(position, offset))`: the zip
truncates to the shorter of the two arguments. -/
def zipAdd (p : Pos) (o : List Int) : Pos :=
  List.zipWith (fun (x : ℚ) (d : Int) => x + (d : ℚ)) p o

/-- Method `random_step`: draws one uniform index into the catalog with
`np.random.choice(len(self.offsets))` and adds the chosen offset
component-wise.  No dimensionality check is performed here. -/
def random_step (w : Walker) (p : Pos) (r : RState) : Except Err (Pos × RState) :=
  let ir := npChoice w.offsets.length r
  .ok (zipAdd p (w.offsets.getD ir.1 []), ir.2)

/-- Loop body of `random_walk`: for each of the remaining steps, step from
`current`, compute both distances on the new position, append the entry. -/
def walk_loop (w : Walker) (current : Pos) (r : RState) : Nat → Except Err (Walker × RState)
  | 0 => .ok (w, r)
  | n + 1 =>
    match random_step w current r with
    | .error e => .error e
    | .ok (next, r1) =>
      match sq_distance_from_origin w next with
      | .error e => .error e
      | .ok dO =>
        match sq_distance_from_start w next with
        | .error e => .error e
        | .ok dS =>
          walk_loop { w with track_data := w.track_data ++ [(next, dO, dS)] } next r1 n

/-- Method `random_walk(nstep)`: `current = tuple(self.start)` — each call
begins from the stored start position — followed by `nstep` iterations of
step / distances / append. -/
def random_walk (w : Walker) (nstep : Nat) (r : RState) : Except Err (Walker × RState) :=
  walk_loop w w.start r nstep

/-- Method `track()`: the ordered positions of the recorded trajectory. -/
def track (w : Walker) : List Pos :=
  w.track_data.map (fun t => t.1)

/-- Whether `q` is reachable from `p` by adding exactly one catalog offset
component-wise. -/
def stepMatchB (offs : List (List Int)) (p q : Pos) : Bool :=
  offs.any (fun o => decide (q = zipAdd p o))

/-- Whether every pair of consecutive positions in a list differs by exactly
one catalog offset. -/
def chainStepB (offs : List (List Int)) : List Pos → Bool
  | p :: q :: rest => stepMatchB offs p q && chainStepB offs (q :: rest)
  | _ => true

/-- Structural invariants every constructed walker enjoys: a nonempty offset
catalog whose entries all have length `ndim`, and a start of length `ndim`. -/
def Wf (w : Walker) : Prop :=
  w.offsets ≠ [] ∧ (∀ o ∈ w.offsets, o.length = w.ndim) ∧ w.start.length = w.ndim

/-- A concrete global random state whose stream always draws 0. -/
def zeroStream : RState :=
  ⟨fun _ => 0, 0⟩

/-- A second concrete global random state, distinct from `zeroStream`. -/
def oneStream : RState :=
  ⟨fun _ => 1, 7⟩

/-- A concrete seed-to-stream map: every seed yields the all-zero stream. -/
def zeroSeedMap : Int → Nat → Nat :=
  fun _ _ => 0

/-- The walker produced by `RandomWalker(start=(0,), ndim=1)` in the primary
variant (field values as computed by `mkWalker [0] 1 false 1`). -/
def wUnit : Walker :=
  { ndim := 1, start := [0], offsets := offsetsAxis 1, track_data := [([0], 0, 0)] }

/-- A concrete two-dimensional walker, `RandomWalker(start=(0,0), ndim=2)`. -/
def wPlane : Walker :=
  { ndim := 2, start := [0, 0], offsets := offsetsAxis 2, track_data := [([0, 0], 0, 0)] }


/-! ## Supporting lemmas -/

theorem sq_dist_origin_ok {ndim : Nat} {p : Pos} (h : p.length = ndim) :
    sq_dist_origin ndim p =
      .ok ((List.zipWith (fun z x => (z - x) * (z - x))
        (List.replicate ndim (0 : ℚ)) p).sum) := by
  simp [sq_dist_origin, h]

theorem sq_dist_origin_len {ndim : Nat} {p : Pos} {q : ℚ}
    (h : sq_dist_origin ndim p = .ok q) : p.length = ndim := by
  by_contra hne
  simp [sq_dist_origin, hne] at h

theorem sq_distance_from_origin_ok {w : Walker} {p : Pos} (h : p.length = w.ndim) :
    sq_distance_from_origin w p =
      .ok ((List.zipWith (fun z x => (z - x) * (z - x))
        (List.replicate w.ndim (0 : ℚ)) p).sum) := by
  simp [sq_distance_from_origin, sq_dist_origin, h]

theorem sq_distance_from_start_ok {w : Walker} {p : Pos} (h : p.length = w.ndim) :
    sq_distance_from_start w p =
      .ok ((List.zipWith (fun s x => (s - x) * (s - x)) w.start p).sum) := by
  simp [sq_distance_from_start, h]

theorem walk_loop_succ_eq (w : Walker) (current : Pos) (r : RState) (n : Nat)
    (hnlen : (zipAdd current (w.offsets.getD (r.stream r.pos % w.offsets.length) [])).length = w.ndim) :
    walk_loop w current r (n + 1) =
      walk_loop { w with track_data := w.track_data ++
          [(zipAdd current (w.offsets.getD (r.stream r.pos % w.offsets.length) []),
            (List.zipWith (fun z x => (z - x) * (z - x)) (List.replicate w.ndim (0 : ℚ))
              (zipAdd current (w.offsets.getD (r.stream r.pos % w.offsets.length) []))).sum,
            (List.zipWith (fun s x => (s - x) * (s - x)) w.start
              (zipAdd current (w.offsets.getD (r.stream r.pos % w.offsets.length) []))).sum)] }
        (zipAdd current (w.offsets.getD (r.stream r.pos % w.offsets.length) []))
        ⟨r.stream, r.pos + 1⟩ n := by
  conv_lhs => rw [walk_loop]
  dsimp only [random_step, npChoice]
  rw [sq_distance_from_origin_ok hnlen]
  dsimp only
  rw [sq_distance_from_start_ok hnlen]

theorem walk_loop_ok (n : Nat) (w : Walker) (current : Pos) (r : RState)
    (hwf : Wf w) (hc : current.length = w.ndim) :
    ∃ wr : Walker × RState, walk_loop w current r n = .ok wr ∧
      wr.1.ndim = w.ndim ∧ wr.1.start = w.start ∧ wr.1.offsets = w.offsets ∧
      ∃ ext : List (Pos × ℚ × ℚ),
        wr.1.track_data = w.track_data ++ ext ∧
        ext.length = n ∧
        (∀ t ∈ ext, t.1.length = w.ndim) ∧
        List.Chain (fun p q => ∃ o ∈ w.offsets, q = zipAdd p o) current
          (ext.map (fun t => t.1)) := by
  induction n generalizing w current r with
  | zero =>
    exact ⟨(w, r), rfl, rfl, rfl, rfl, [], by simp, rfl, by simp, List.Chain.nil⟩
  | succ n ih =>
    obtain ⟨hne, hoff, hstart⟩ := hwf
    have hlpos : 0 < w.offsets.length := List.length_pos.mpr hne
    have hi : r.stream r.pos % w.offsets.length < w.offsets.length :=
      Nat.mod_lt _ hlpos
    have ho : w.offsets.getD (r.stream r.pos % w.offsets.length) [] ∈ w.offsets := by
      rw [List.getD_eq_getElem _ _ hi]
      exact List.getElem_mem hi
    have holen : (w.offsets.getD (r.stream r.pos % w.offsets.length) []).length = w.ndim :=
      hoff _ ho
    have hnlen : (zipAdd current (w.offsets.getD (r.stream r.pos % w.offsets.length) [])).length = w.ndim := by
      unfold zipAdd
      rw [List.length_zipWith, hc, holen]
      exact min_self _
    obtain ⟨wr, hrun, hn1, hs1, ho1, ext, htr, hlen, hextlen, hchain⟩ :=
      ih { w with track_data := w.track_data ++
            [(zipAdd current (w.offsets.getD (r.stream r.pos % w.offsets.length) []),
              (List.zipWith (fun z x => (z - x) * (z - x)) (List.replicate w.ndim (0 : ℚ))
                (zipAdd current (w.offsets.getD (r.stream r.pos % w.offsets.length) []))).sum,
              (List.zipWith (fun s x => (s - x) * (s - x)) w.start
                (zipAdd current (w.offsets.getD (r.stream r.pos % w.offsets.length) []))).sum)] }
        (zipAdd current (w.offsets.getD (r.stream r.pos % w.offsets.length) []))
        ⟨r.stream, r.pos + 1⟩ ⟨hne, hoff, hstart⟩ hnlen
    refine ⟨wr, (walk_loop_succ_eq w current r n hnlen) ▸ hrun, hn1, hs1, ho1,
      (zipAdd current (w.offsets.getD (r.stream r.pos % w.offsets.length) []),
        (List.zipWith (fun z x => (z - x) * (z - x)) (List.replicate w.ndim (0 : ℚ))
          (zipAdd current (w.offsets.getD (r.stream r.pos % w.offsets.length) []))).sum,
        (List.zipWith (fun s x => (s - x) * (s - x)) w.start
          (zipAdd current (w.offsets.getD (r.stream r.pos % w.offsets.length) []))).sum) :: ext,
      ?_, by simp [hlen], ?_, ?_⟩
    · rw [htr]
      simp
    · intro t ht
      rcases List.mem_cons.mp ht with rfl | ht
      · exact hnlen
      · exact hextlen t ht
    · rw [List.map_cons, List.chain_cons]
      exact ⟨⟨_, ho, rfl⟩, hchain⟩

theorem mkWalker_ok {start : Pos} {ndim seed : Int} {diag : Bool}
    {f : Int → Nat → Nat} {r : RState} {w : Walker} {r0 : RState}
    (h : mkWalker start ndim diag seed f r = .ok (w, r0)) :
    (1 ≤ ndim ∧ ndim ≤ 3) ∧ w.ndim = ndim.toNat ∧ w.start = start ∧
    start.length = w.ndim ∧
    w.offsets = (if diag then offsetsDiag w.ndim else offsetsAxis w.ndim) ∧
    (∃ d0 : ℚ, w.track_data = [(start, d0, 0)]) ∧ r0 = npSeed f seed r := by
  unfold mkWalker at h
  split at h
  · exact absurd h (by simp)
  next hcond =>
    have hrange : 1 ≤ ndim ∧ ndim ≤ 3 := not_not.mp hcond
    split at h
    · exact absurd h (by simp)
    next d0 hd0 =>
      injection h with h'
      injection h' with h1 h2
      subst h1 h2
      exact ⟨hrange, rfl, rfl, sq_dist_origin_len hd0, rfl, ⟨d0, rfl⟩, rfl⟩

theorem mkWalker_wf {start : Pos} {ndim seed : Int} {diag : Bool}
    {f : Int → Nat → Nat} {r : RState} {w : Walker} {r0 : RState}
    (h : mkWalker start ndim diag seed f r = .ok (w, r0)) : Wf w := by
  obtain ⟨⟨h1, h3⟩, hnd, hst, hlen, hoffs, -, -⟩ := mkWalker_ok h
  have hn : w.ndim = 1 ∨ w.ndim = 2 ∨ w.ndim = 3 := by omega
  refine ⟨?_, ?_, by rw [hst]; exact hlen⟩ <;>
    rw [hoffs] <;>
    rcases hn with hn | hn | hn <;>
    rw [hn] <;>
    cases diag <;>
    first
      | decide
      | (intro o ho; revert ho; revert o; decide)

theorem chainStepB_of_chain (offs : List (List Int)) (p : Pos) (l : List Pos)
    (h : List.Chain (fun a b => ∃ o ∈ offs, b = zipAdd a o) p l) :
    chainStepB offs (p :: l) = true := by
  induction l generalizing p with
  | nil => rfl
  | cons q rest ih =>
    obtain ⟨hrel, hchain⟩ := List.chain_cons.mp h
    obtain ⟨o, ho, heq⟩ := hrel
    have hstep : stepMatchB offs p q = true := by
      apply List.any_eq_true.mpr
      exact ⟨o, ho, decide_eq_true heq⟩
    calc chainStepB offs (p :: q :: rest)
        = (stepMatchB offs p q && chainStepB offs (q :: rest)) := rfl
      _ = true := by rw [hstep, ih q hchain, Bool.and_self]

theorem mem_prodList {choices : List Int} : ∀ {n : Nat} {o : List Int},
    o ∈ prodList choices n ↔ o.length = n ∧ ∀ x ∈ o, x ∈ choices := by
  intro n
  induction n with
  | zero =>
    intro o
    constructor
    · intro h
      simp only [prodList, List.mem_singleton] at h
      subst h
      simp
    · rintro ⟨hl, -⟩
      simp [prodList, List.length_eq_zero.mp hl]
  | succ n ih =>
    intro o
    cases o with
    | nil => simp [prodList]
    | cons a tl =>
      simp only [prodList, List.mem_flatMap, List.mem_map, List.cons.injEq]
      constructor
      · rintro ⟨c, hc, rest, hrest, rfl, rfl⟩
        obtain ⟨hl, hmem⟩ := ih.mp hrest
        refine ⟨by simp [hl], ?_⟩
        intro x hx
        rcases List.mem_cons.mp hx with rfl | hx
        · exact hc
        · exact hmem x hx
      · rintro ⟨hl, hmem⟩
        refine ⟨a, hmem a (by simp), tl, ih.mpr ⟨by simpa using hl, ?_⟩, rfl, rfl⟩
        intro x hx
        exact hmem x (List.mem_cons_of_mem a hx)

theorem zipWith_sq_nonneg (as bs : List ℚ) :
    0 ≤ (List.zipWith (fun a b => (a - b) * (a - b)) as bs).sum := by
  induction as generalizing bs with
  | nil => simp
  | cons a tl ih =>
    cases bs with
    | nil => simp
    | cons b tlb =>
      rw [List.zipWith_cons_cons, List.sum_cons]
      exact add_nonneg (mul_self_nonneg _) (ih tlb)

theorem zipWith_sq_self (as : List ℚ) :
    (List.zipWith (fun a b => (a - b) * (a - b)) as as).sum = 0 := by
  induction as with
  | nil => rfl
  | cons a tl ih =>
    rw [List.zipWith_cons_cons, List.sum_cons, ih]
    simp

theorem zipWith_sq_cast (as : List ℚ) : ∀ (bs : List ℚ), as.length = bs.length →
    (((List.zipWith (fun a b => (a - b) * (a - b)) as bs).sum : ℚ) : ℝ)
      = ∑ i ∈ Finset.range as.length,
          (((bs.getD i 0 : ℚ) : ℝ) - ((as.getD i 0 : ℚ) : ℝ)) ^ 2 := by
  induction as with
  | nil =>
    intro bs h
    simp
  | cons a tl ih =>
    intro bs h
    cases bs with
    | nil => simp at h
    | cons b tlb =>
      have h' : tl.length = tlb.length := by simpa using h
      rw [List.zipWith_cons_cons, List.sum_cons, Rat.cast_add, Rat.cast_mul, Rat.cast_sub]
      rw [ih tlb h', List.length_cons, Finset.sum_range_succ']
      simp only [List.getD_cons_succ, List.getD_cons_zero]
      ring

theorem getD_replicate_zero (n i : Nat) : (List.replicate n (0 : ℚ)).getD i 0 = 0 := by
  induction n generalizing i with
  | zero => simp
  | succ n ih =>
    cases i with
    | zero => simp [List.replicate_succ]
    | succ i => simp [List.replicate_succ, List.getD_cons_succ, ih]


/-! ## Claim theorems -/

/-- Claim C1, counterexample: the claim asserts that every iteration of
`random_walk` steps from the last recorded position, so that consecutive
positions in `track()` differ by one catalog offset even across two
successive `random_walk` calls.  On the walker constructed from
`start = (0,)`, `ndim = 1`, `seed = 1`, running `random_walk(1)` twice (with
a draw stream that always picks index 0) yields a track whose consecutive
positions do not all differ by a catalog offset: the second call restarts
from the start position, recording `[(0,), (1,), (1,)]`. -/
theorem C1_counterexample :
    (mkWalker [0] 1 false 1 zeroSeedMap zeroStream).bind
      (fun wr => (random_walk wr.1 1 wr.2).bind
        (fun wr1 => (random_walk wr1.1 1 wr1.2).map
          (fun wr2 => chainStepB wr2.1.offsets (track wr2.1)))) = .ok false := by
  with_unfolding_all rfl

/-- Claim C1, amended: each `random_walk` call begins from the walker's start
position (`current = tuple(self.start)`), not from the last recorded
position; within a single call every later iteration steps from the
position produced by the previous one.  Hence for a freshly constructed
walker a single `random_walk(n)` call, under any draw stream, produces a
track in which every pair of consecutive positions differs by exactly one
catalog offset; the property is not preserved across call boundaries. -/
theorem C1_single_call_chain (start : Pos) (ndim seed : Int) (diag : Bool)
    (f : Int → Nat → Nat) (r r2 : RState) (w : Walker) (r0 : RState) (n : Nat)
    (h : mkWalker start ndim diag seed f r = .ok (w, r0)) :
    (random_walk w n r2).map (fun wr => chainStepB wr.1.offsets (track wr.1)) = .ok true := by
  have hwf := mkWalker_wf h
  obtain ⟨-, -, hst, -, -, ⟨d0, htd⟩, -⟩ := mkWalker_ok h
  obtain ⟨wr, hrun, -, -, hoffs, ext, htr, -, -, hchain⟩ :=
    walk_loop_ok n w w.start r2 hwf hwf.2.2
  unfold random_walk
  rw [hrun]
  show Except.ok (chainStepB wr.1.offsets (track wr.1)) = .ok true
  rw [hoffs]
  unfold track
  rw [htr, htd, List.singleton_append, List.map_cons]
  congr 1
  show chainStepB w.offsets (start :: ext.map (fun t => t.1)) = true
  rw [← hst]
  exact chainStepB_of_chain _ _ _ hchain

/-- Witness for C1's amended theorem at a concrete input: the walker built
from `start = (0,)`, `ndim = 1`, `seed = 1`, walked once for 2 steps under
the all-ones draw stream, has a track whose consecutive positions each
differ by one catalog offset. -/
theorem C1_single_call_chain_witness :
    (random_walk wUnit 2 oneStream).map (fun wr => chainStepB wr.1.offsets (track wr.1))
      = .ok true :=
  C1_single_call_chain [0] 1 1 false zeroSeedMap zeroStream oneStream wUnit
    ⟨zeroSeedMap 1, 0⟩ 2 (by with_unfolding_all rfl)

/-- Claim C2: for a freshly constructed walker and every `n ≥ 0`, a single
`random_walk(n)` call appends exactly `n` entries, so `track()` has length
`1 + n` and its first element is the start position; for `n = 0` the call
is a no-op returning the walker unchanged. -/
theorem C2_track_length_fresh (start : Pos) (ndim seed : Int) (diag : Bool)
    (f : Int → Nat → Nat) (r : RState) (w : Walker) (r0 : RState) (n : Nat)
    (h : mkWalker start ndim diag seed f r = .ok (w, r0)) :
    (random_walk w n r0).map (fun wr => ((track wr.1).length, (track wr.1).head?))
      = .ok (1 + n, some start) ∧
    random_walk w 0 r0 = .ok (w, r0) := by
  have hwf := mkWalker_wf h
  obtain ⟨-, -, hst, -, -, ⟨d0, htd⟩, -⟩ := mkWalker_ok h
  refine ⟨?_, rfl⟩
  obtain ⟨wr, hrun, -, -, -, ext, htr, hextlen, -, -⟩ :=
    walk_loop_ok n w w.start r0 hwf hwf.2.2
  unfold random_walk
  rw [hrun]
  show Except.ok ((track wr.1).length, (track wr.1).head?) = _
  unfold track
  rw [htr, htd]
  simp [hextlen, Nat.add_comm]

/-- Witness for C2 at a concrete input: walking the fresh unit walker for 3
steps gives a track of length 4 headed by the start `(0,)`. -/
theorem C2_track_length_fresh_witness :
    (random_walk wUnit 3 (⟨zeroSeedMap 1, 0⟩ : RState)).map
        (fun wr => ((track wr.1).length, (track wr.1).head?)) = .ok (1 + 3, some [0]) ∧
    random_walk wUnit 0 (⟨zeroSeedMap 1, 0⟩ : RState) = .ok (wUnit, ⟨zeroSeedMap 1, 0⟩) :=
  C2_track_length_fresh [0] 1 1 false zeroSeedMap zeroStream wUnit
    ⟨zeroSeedMap 1, 0⟩ 3 (by with_unfolding_all rfl)

/-- Claim C3: constructing two engines with identical `start`, `ndim`,
`allow_diagonals` and the same positive seed, then calling `random_walk(n)`
with the same `n` on both, yields identical results — whatever the global
random state was before each construction — because a positive seed resets
the global stream to a function of the seed alone. -/
theorem C3_seeded_determinism (start : Pos) (ndim : Int) (diag : Bool) (seed : Int)
    (f : Int → Nat → Nat) (r1 r2 : RState) (n : Nat) (hseed : 0 < seed) :
    (mkWalker start ndim diag seed f r1).map (fun wr => random_walk wr.1 n wr.2)
      = (mkWalker start ndim diag seed f r2).map (fun wr => random_walk wr.1 n wr.2) := by
  have key : ∀ r : RState, npSeed f seed r = ⟨f seed, 0⟩ := by
    intro r
    simp [npSeed, hseed]
  unfold mkWalker
  simp only [key]

/-- Witness for C3 at a concrete input: two diagonal-mode walkers seeded with
3 from different prior global random states produce equal walk results. -/
theorem C3_seeded_determinism_witness :
    (mkWalker [0, 0] 2 true 3 zeroSeedMap zeroStream).map (fun wr => random_walk wr.1 2 wr.2)
      = (mkWalker [0, 0] 2 true 3 zeroSeedMap oneStream).map (fun wr => random_walk wr.1 2 wr.2) :=
  C3_seeded_determinism [0, 0] 2 true 3 zeroSeedMap zeroStream oneStream 2 (by decide)

/-- Claim C4, counterexample: the claim asserts `random_step` fails with
`InvalidPosition` whenever its argument's length differs from `ndim`.  On
the unit walker (`ndim = 1`) applied to the length-2 position `(0, 0)`,
`random_step` does not fail: it performs no dimensionality check, and the
zip truncates, returning a position of length 1. -/
theorem C4_counterexample :
    random_step wUnit [0, 0] zeroStream ≠ .error .InvalidPosition ∧
    (random_step wUnit [0, 0] zeroStream).map (fun q => q.1.length) = .ok 1 := by
  constructor
  · simp [random_step]
  · with_unfolding_all rfl

/-- Claim C4, amended: `random_step` performs no dimensionality validation
and never fails; it returns a position of length `min (len position) ndim`
(the zip truncates to the shorter argument), hence of exactly `ndim`
components whenever the argument has length `ndim`. -/
theorem C4_step_no_validation (w : Walker) (p : Pos) (r : RState)
    (hne : w.offsets ≠ []) (hlen : ∀ o ∈ w.offsets, o.length = w.ndim) :
    (random_step w p r).map (fun q => q.1.length) = .ok (min p.length w.ndim) ∧
    (p.length = w.ndim → (random_step w p r).map (fun q => q.1.length) = .ok w.ndim) := by
  have hlpos : 0 < w.offsets.length := List.length_pos.mpr hne
  have hi : r.stream r.pos % w.offsets.length < w.offsets.length := Nat.mod_lt _ hlpos
  have ho : w.offsets.getD (r.stream r.pos % w.offsets.length) [] ∈ w.offsets := by
    rw [List.getD_eq_getElem _ _ hi]
    exact List.getElem_mem hi
  have holen := hlen _ ho
  have base : (random_step w p r).map (fun q => q.1.length) = .ok (min p.length w.ndim) := by
    show Except.ok ((zipAdd p (w.offsets.getD (r.stream r.pos % w.offsets.length) [])).length)
      = .ok (min p.length w.ndim)
    congr 1
    unfold zipAdd
    rw [List.length_zipWith, holen]
  exact ⟨base, fun hp => by rw [base, hp, min_self]⟩

/-- Witness for C4's amended theorem at a concrete input: stepping the unit
walker from the length-2 position `(0, 0)` yields a position of length
`min 2 1`. -/
theorem C4_step_no_validation_witness :
    (random_step wUnit [0, 0] zeroStream).map (fun q => q.1.length)
      = .ok (min (List.length ([0, 0] : Pos)) wUnit.ndim) :=
  (C4_step_no_validation wUnit [0, 0] zeroStream (by decide)
    (by intro o ho; revert ho; revert o; decide)).1

/-- Claim C5: for every `ndim` in `{1, 2, 3}`, the axis-aligned catalog has
exactly `2·ndim` entries and the diagonal catalog exactly `3^ndim − 1`; no
entry of either is the zero vector, all entries are pairwise distinct, and
the diagonal catalog contains exactly the vectors over `{−1, 0, 1}` of
length `ndim` other than the all-zero vector. -/
theorem C5_offset_catalog (n : Nat) (h : n = 1 ∨ n = 2 ∨ n = 3) :
    (offsetsAxis n).length = 2 * n ∧
    (offsetsDiag n).length = 3 ^ n - 1 ∧
    List.replicate n 0 ∉ offsetsAxis n ∧
    List.replicate n 0 ∉ offsetsDiag n ∧
    (offsetsAxis n).Nodup ∧
    (offsetsDiag n).Nodup ∧
    (∀ o : List Int, o ∈ offsetsDiag n ↔
      (o.length = n ∧ (∀ x ∈ o, x = -1 ∨ x = 0 ∨ x = 1) ∧ o ≠ List.replicate n 0)) := by
  have hchar : ∀ (m : Nat), (prodList [-1, 0, 1] m).Nodup →
      ∀ o : List Int, o ∈ offsetsDiag m ↔
        (o.length = m ∧ (∀ x ∈ o, x = -1 ∨ x = 0 ∨ x = 1) ∧ o ≠ List.replicate m 0) := by
    intro m hnd o
    unfold offsetsDiag
    rw [hnd.mem_erase_iff, mem_prodList]
    constructor
    · rintro ⟨hne, hl, hmem⟩
      exact ⟨hl, fun x hx => by simpa using hmem x hx, hne⟩
    · rintro ⟨hl, hmem, hne⟩
      exact ⟨hne, hl, fun x hx => by simpa using hmem x hx⟩
  rcases h with rfl | rfl | rfl <;>
    exact ⟨by decide, by decide, by decide, by decide, by decide, by decide,
      hchar _ (by decide)⟩

/-- Witness for C5 at the concrete dimensionality 2: catalog sizes and
distinctness as computed. -/
theorem C5_offset_catalog_witness :
    (offsetsAxis 2).length = 2 * 2 ∧ (offsetsDiag 2).length = 3 ^ 2 - 1 ∧
    (offsetsDiag 2).Nodup := by
  obtain ⟨h1, h2, -, -, -, h6, -⟩ := C5_offset_catalog 2 (by decide)
  exact ⟨h1, h2, h6⟩

/-- Claim C6: construction succeeds for every `ndim` in `{1, 2, 3}` together
with a start of matching length, and fails with `InvalidDimension` for
every `ndim` outside `{1, 2, 3}` regardless of the other arguments. -/
theorem C6_construction_validation (start : Pos) (ndim seed : Int) (diag : Bool)
    (f : Int → Nat → Nat) (r : RState) :
    ((1 ≤ ndim ∧ ndim ≤ 3) → (start.length : Int) = ndim →
      (mkWalker start ndim diag seed f r).isOk = true) ∧
    (¬ (1 ≤ ndim ∧ ndim ≤ 3) → mkWalker start ndim diag seed f r = .error .InvalidDimension) := by
  constructor
  · rintro h hlen
    have hl : start.length = ndim.toNat := by omega
    unfold mkWalker
    rw [if_neg (not_not.mpr h), sq_dist_origin_ok hl]
    rfl
  · intro h
    unfold mkWalker
    rw [if_pos h]

/-- Witness for C6 at concrete inputs: `ndim = 2` with a matching start
constructs, `ndim = 5` fails with `InvalidDimension`. -/
theorem C6_construction_validation_witness :
    (mkWalker [0, 0] 2 false 1 zeroSeedMap zeroStream).isOk = true ∧
    mkWalker [0] 5 false 1 zeroSeedMap zeroStream = .error .InvalidDimension :=
  ⟨(C6_construction_validation [0, 0] 2 1 false zeroSeedMap zeroStream).1
      (by decide) (by decide),
   (C6_construction_validation [0] 5 1 false zeroSeedMap zeroStream).2 (by decide)⟩

/-- Claim C7: `distance_from_start` and `distance_from_origin` fail with
`InvalidPosition` exactly when the given position's length differs from
`ndim`, and succeed otherwise; and because the constructor computes
`distance_from_origin(start)`, construction with a valid `ndim` fails with
`InvalidPosition` when the start's length differs from `ndim`. -/
theorem C7_position_validation (w : Walker) (p : Pos) (start : Pos) (ndim seed : Int)
    (diag : Bool) (f : Int → Nat → Nat) (r : RState) :
    (sq_distance_from_start w p = .error .InvalidPosition ↔ p.length ≠ w.ndim) ∧
    (sq_distance_from_origin w p = .error .InvalidPosition ↔ p.length ≠ w.ndim) ∧
    (p.length = w.ndim →
      (sq_distance_from_start w p).isOk = true ∧ (sq_distance_from_origin w p).isOk = true) ∧
    ((1 ≤ ndim ∧ ndim ≤ 3) → (start.length : Int) ≠ ndim →
      mkWalker start ndim diag seed f r = .error .InvalidPosition) := by
  refine ⟨?_, ?_, ?_, ?_⟩
  · by_cases hp : p.length = w.ndim <;> simp [sq_distance_from_start, hp]
  · by_cases hp : p.length = w.ndim <;> simp [sq_distance_from_origin, sq_dist_origin, hp]
  · intro hp
    constructor <;>
      · simp only [sq_distance_from_start, sq_distance_from_origin, sq_dist_origin, hp,
          ne_eq, not_true_eq_false, if_false]
        rfl
  · intro hnd hlen
    have hl : start.length ≠ ndim.toNat := by omega
    unfold mkWalker
    rw [if_neg (not_not.mpr hnd)]
    simp [sq_dist_origin, hl]

/-- Witness for C7 at concrete inputs: a length-2 position fails the unit
walker's start-distance check, and constructing with `ndim = 1` but a
length-2 start fails with `InvalidPosition`. -/
theorem C7_position_validation_witness :
    sq_distance_from_start wUnit [0, 0] = .error .InvalidPosition ∧
    mkWalker [0, 0] 1 false 1 zeroSeedMap zeroStream = .error .InvalidPosition :=
  ⟨(C7_position_validation wUnit [0, 0] [0] 1 1 false zeroSeedMap zeroStream).1.mpr
      (by decide),
   (C7_position_validation wUnit [0] [0, 0] 1 1 false zeroSeedMap zeroStream).2.2.2
      (by decide) (by decide)⟩

/-- Claim C8: for every position of length `ndim`, the value computed by
`distance_from_start` is the Euclidean norm of `position − start` and the
value computed by `distance_from_origin` is the Euclidean norm of
`position`; the recorded radicands are nonnegative, and at `position =
start` the distance from start is exactly 0. -/
theorem C8_euclidean_distance (w : Walker) (p : Pos) (hs : w.start.length = w.ndim)
    (hp : p.length = w.ndim) (qs qo : ℚ)
    (hqs : sq_distance_from_start w p = .ok qs)
    (hqo : sq_distance_from_origin w p = .ok qo) :
    0 ≤ qs ∧ 0 ≤ qo ∧
    Real.sqrt (qs : ℝ) = ‖(show EuclideanSpace ℝ (Fin w.ndim) from
      fun i => ((p.getD i 0 : ℚ) : ℝ) - ((w.start.getD i 0 : ℚ) : ℝ))‖ ∧
    Real.sqrt (qo : ℝ) = ‖(show EuclideanSpace ℝ (Fin w.ndim) from
      fun i => ((p.getD i 0 : ℚ) : ℝ))‖ ∧
    (p = w.start → qs = 0) := by
  rw [sq_distance_from_start_ok hp] at hqs
  rw [sq_distance_from_origin_ok hp] at hqo
  injection hqs with hqs
  injection hqo with hqo
  subst hqs hqo
  refine ⟨zipWith_sq_nonneg _ _, zipWith_sq_nonneg _ _, ?_, ?_, ?_⟩
  · rw [EuclideanSpace.norm_eq]
    congr 1
    rw [zipWith_sq_cast w.start p (by rw [hs, hp]), hs, Finset.sum_range]
    apply Finset.sum_congr rfl
    intro i _
    rw [Real.norm_eq_abs, sq_abs]
  · rw [EuclideanSpace.norm_eq]
    congr 1
    rw [zipWith_sq_cast (List.replicate w.ndim (0 : ℚ)) p (by simp [hp]),
      List.length_replicate, Finset.sum_range]
    apply Finset.sum_congr rfl
    intro i _
    rw [Real.norm_eq_abs, sq_abs, getD_replicate_zero]
    ring
  · intro hpe
    subst hpe
    exact zipWith_sq_self _

/-- Witness for C8 at a concrete input: on the planar walker at position
`(3, 4)` both radicands are 25, nonnegative, and the distance from start is
the Euclidean norm of `(3, 4)`. -/
theorem C8_euclidean_distance_witness :
    0 ≤ (25 : ℚ) ∧
    Real.sqrt ((25 : ℚ) : ℝ) = ‖(show EuclideanSpace ℝ (Fin wPlane.ndim) from
      fun i => ((([3, 4] : Pos).getD i 0 : ℚ) : ℝ) - ((wPlane.start.getD i 0 : ℚ) : ℝ))‖ := by
  obtain ⟨h1, -, h3, -, -⟩ := C8_euclidean_distance wPlane [3, 4] rfl rfl 25 25
    (by with_unfolding_all rfl) (by with_unfolding_all rfl)
  exact ⟨h1, h3⟩

/-- Claim C9: `random_walk` leaves `ndim`, `start` and the offset catalog
unchanged and only appends to the trajectory — the previously recorded
prefix of `track_data` is preserved verbatim.  (The other engine operations
— `random_step`, the two distance computations and `track` — are embedded
as pure functions of the walker, mirroring that they only read `self`.) -/
theorem C9_frame_append_only (w : Walker) (r : RState) (n : Nat) (hwf : Wf w) :
    (random_walk w n r).map (fun wr =>
      (wr.1.ndim, wr.1.start, wr.1.offsets, wr.1.track_data.take w.track_data.length))
      = .ok (w.ndim, w.start, w.offsets, w.track_data) := by
  obtain ⟨wr, hrun, hn1, hs1, ho1, ext, htr, -, -, -⟩ :=
    walk_loop_ok n w w.start r hwf hwf.2.2
  unfold random_walk
  rw [hrun]
  show Except.ok (wr.1.ndim, wr.1.start, wr.1.offsets,
    wr.1.track_data.take w.track_data.length) = _
  rw [hn1, hs1, ho1, htr, List.take_left]

/-- Witness for C9 at a concrete input: walking the unit walker twice keeps
its configuration and initial trajectory entry intact. -/
theorem C9_frame_append_only_witness :
    (random_walk wUnit 2 zeroStream).map (fun wr =>
      (wr.1.ndim, wr.1.start, wr.1.offsets, wr.1.track_data.take wUnit.track_data.length))
      = .ok (wUnit.ndim, wUnit.start, wUnit.offsets, wUnit.track_data) :=
  C9_frame_append_only wUnit zeroStream 2
    ⟨by decide, by intro o ho; revert ho; revert o; decide, by decide⟩

/-- Claim C10, counterexample: the claim asserts the two variants build the
same axis-aligned catalog as an ordered list; at `ndim = 2` the legacy
variant (axis-major) yields `[(1,0), (-1,0), (0,1), (0,-1)]` while the
primary variant (direction-major) yields `[(1,0), (0,1), (-1,0), (0,-1)]`,
so the ordered lists differ. -/
theorem C10_counterexample : offsetsAxisLegacy 2 ≠ offsetsAxis 2 := by decide

/-- Claim C10, amended: for every `ndim` in `{1, 2, 3}` the two variants'
axis-aligned catalogs contain the same offsets (they are permutations of
each other), but they coincide as ordered lists exactly when `ndim = 1`;
for `ndim ≥ 2` the same random index sequence can therefore select
different offsets in the two variants. -/
theorem C10_axis_catalogs_permuted (n : Nat) (h : n = 1 ∨ n = 2 ∨ n = 3) :
    (offsetsAxisLegacy n).Perm (offsetsAxis n) ∧
    (offsetsAxisLegacy n = offsetsAxis n ↔ n = 1) := by
  rcases h with rfl | rfl | rfl <;> exact ⟨by decide, by decide⟩

/-- Witness for C10's amended theorem at the concrete dimensionality 2: the
two catalogs are permutations of each other. -/
theorem C10_axis_catalogs_permuted_witness :
    (offsetsAxisLegacy 2).Perm (offsetsAxis 2) :=
  (C10_axis_catalogs_permuted 2 (by decide)).1

end RandomWalks
